import Mathlib

/-!
Verification of the audio transcription pipeline.

Shallow embedding of the core logic of the repository:
- the hierarchical summarizer of openai_client.py (generate_summary), with its
  line-based segmentation of long transcripts;
- the chunk planner of audio_processor.py (split_audio_file): chunk count,
  chunk time spans, and the derived, clamped, target bitrate;
- the transcription orchestrator and transcript aggregator of
  audio_processor.py (process_audio_file), including the per-chunk temp-file
  cleanup performed in the finally block;
- the whole-file entry point of transcribe.py (process_file).

External services (Whisper transcription, GPT summarization) are modelled as
oracles: functions from a call index to the optional text the remote call
returned, where none stands for an exception or a None payload.  File-system
writes are modelled as actions recorded in a trace.  Python float arithmetic
in the bitrate derivation is modelled exactly over the rationals.
-/

namespace AudioTranscription

/-! ## Python string primitives

Lean's String.splitOn and String.trim do not reduce in the kernel, so the two
Python primitives the summarizer uses are embedded directly as structurally
recursive functions on the character list. -/

/-- Helper for splitLines: walks the characters, cutting at each newline.
The accumulator holds the current line reversed. -/
def splitLinesAux : List Char → List Char → List String
  | [], acc => [String.mk acc.reverse]
  | c :: cs, acc =>
    if c = '\n' then String.mk acc.reverse :: splitLinesAux cs []
    else splitLinesAux cs (c :: acc)

/-- Python transcript.split with a newline separator: splits a string on
every newline character.  As in Python, the empty string yields one empty
line and a trailing newline yields a trailing empty line. -/
def splitLines (s : String) : List String := splitLinesAux s.data []

/-- Python falsy-or-blank test on a string: `not s or not s.strip()` is true
exactly when every character of s is whitespace (vacuously for the empty
string). -/
def isBlank (s : String) : Bool := s.data.all Char.isWhitespace

/-! ## Summarizer segmentation (openai_client.generate_summary, lines 101-119)

The segmentation block of generate_summary: the transcript's lines are walked
in order; a line is appended (with its newline) to the current segment unless
the running character count, which sums the raw line lengths, would exceed
1000, in which case the current segment is flushed and the line starts a new
segment.  A nonempty final segment is flushed at the end. -/

/-- The segmentation loop of generate_summary, carrying the current segment
text and its running character count (current_segment, current_length). -/
def segmentsLoop : List String → String → Nat → List String
  | [], cur, _ => if cur = "" then [] else [cur]
  | line :: rest, cur, clen =>
    if 1000 < clen + line.length then
      cur :: segmentsLoop rest (line ++ "\n") line.length
    else
      segmentsLoop rest (cur ++ (line ++ "\n")) (clen + line.length)

/-- The segments generate_summary builds for a long transcript: the
segmentation loop run over the transcript's lines, starting from an empty
segment and a zero running count. -/
def generate_summary_segments (t : String) : List String :=
  segmentsLoop (splitLines t) "" 0

/-! ### Runs-of-lines view of the segmentation, for the partition proof -/

/-- Sum of the raw character counts of a run of lines (the quantity the
segmentation loop tracks in current_length). -/
def lineLen (r : List String) : Nat := (r.map String.length).sum

/-- Renders a run of lines the way the segmentation loop accumulates them:
each line followed by a newline. -/
def renderRun : List String → String
  | [] => ""
  | l :: ls => (l ++ "\n") ++ renderRun ls

/-- The segmentation loop, tracked at the level of runs of whole lines
instead of accumulated strings. -/
def segRunsLoop : List String → List String → Nat → List (List String)
  | [], cur, _ => if cur = [] then [] else [cur]
  | line :: rest, cur, clen =>
    if 1000 < clen + line.length then
      cur :: segRunsLoop rest [line] line.length
    else
      segRunsLoop rest (cur ++ [line]) (clen + line.length)

/-- The runs of lines underlying the segments of a transcript. -/
def segRuns (t : String) : List (List String) := segRunsLoop (splitLines t) [] 0

/-- Maximality relation between adjacent segment runs: the next run starts
with a line that would have pushed the previous run past the 1000-character
budget. -/
def segRel (r1 r2 : List String) : Prop :=
  ∃ l ls, r2 = l :: ls ∧ 1000 < lineLen r1 + l.length

theorem renderRun_cons_ne_empty (l : String) (ls : List String) :
    renderRun (l :: ls) ≠ "" := by
  intro h
  have hlen := congrArg String.length h
  rw [renderRun, String.length_append, String.length_append] at hlen
  simp [show ("\n" : String).length = 1 from rfl,
    show ("" : String).length = 0 from rfl] at hlen

theorem renderRun_append_single (xs : List String) (y : String) :
    renderRun (xs ++ [y]) = renderRun xs ++ (y ++ "\n") := by
  induction xs with
  | nil => simp [renderRun, String.append_empty]
  | cons x xs ih =>
    show (x ++ "\n") ++ renderRun (xs ++ [y]) =
      ((x ++ "\n") ++ renderRun xs) ++ (y ++ "\n")
    rw [ih]
    simp [String.append_assoc]

theorem segmentsLoop_eq_runs (lines : List String) :
    ∀ cur clen, segmentsLoop lines (renderRun cur) clen =
      (segRunsLoop lines cur clen).map renderRun := by
  induction lines with
  | nil =>
    intro cur clen
    cases cur with
    | nil => simp [segmentsLoop, segRunsLoop, renderRun]
    | cons l ls =>
      simp [segmentsLoop, segRunsLoop, renderRun_cons_ne_empty l ls]
  | cons line rest ih =>
    intro cur clen
    by_cases h : 1000 < clen + line.length
    · simp only [segmentsLoop, segRunsLoop, if_pos h, List.map_cons]
      have h1 : renderRun [line] = line ++ "\n" := by
        simp [renderRun, String.append_empty]
      rw [← h1, ih [line] line.length]
    · simp only [segmentsLoop, segRunsLoop, if_neg h]
      have h2 : renderRun cur ++ (line ++ "\n") = renderRun (cur ++ [line]) :=
        (renderRun_append_single cur line).symm
      rw [h2, ih (cur ++ [line]) (clen + line.length)]

theorem segRunsLoop_flatten (lines : List String) :
    ∀ cur clen, (segRunsLoop lines cur clen).flatten = cur ++ lines := by
  induction lines with
  | nil =>
    intro cur clen
    cases cur <;> simp [segRunsLoop]
  | cons line rest ih =>
    intro cur clen
    by_cases h : 1000 < clen + line.length
    · simp [segRunsLoop, if_pos h, ih [line] line.length]
    · simp [segRunsLoop, if_neg h, ih (cur ++ [line]) (clen + line.length)]

theorem lineLen_append_single (cur : List String) (line : String) :
    lineLen (cur ++ [line]) = lineLen cur + line.length := by
  simp [lineLen]

theorem segRunsLoop_budget (lines : List String) :
    ∀ cur clen, clen = lineLen cur →
      (lineLen cur ≤ 1000 ∨ ∃ l, cur = [l] ∧ 1000 < l.length) →
      ∀ r ∈ segRunsLoop lines cur clen,
        lineLen r ≤ 1000 ∨ ∃ l, r = [l] ∧ 1000 < l.length := by
  induction lines with
  | nil =>
    intro cur clen _ hcur r hr
    cases cur with
    | nil => simp [segRunsLoop] at hr
    | cons c cs =>
      simp [segRunsLoop] at hr
      rw [hr]; exact hcur
  | cons line rest ih =>
    intro cur clen hclen hcur r hr
    by_cases h : 1000 < clen + line.length
    · rw [segRunsLoop, if_pos h] at hr
      rcases List.mem_cons.mp hr with h1 | h2
      · rw [h1]; exact hcur
      · refine ih [line] line.length (by simp [lineLen]) ?_ r h2
        by_cases hl : 1000 < line.length
        · exact Or.inr ⟨line, rfl, hl⟩
        · exact Or.inl (by simp [lineLen]; omega)
    · rw [segRunsLoop, if_neg h] at hr
      refine ih (cur ++ [line]) (clen + line.length)
        (by rw [lineLen_append_single, hclen]) ?_ r hr
      rw [lineLen_append_single]
      exact Or.inl (by omega)

theorem segRunsLoop_shape (lines : List String) :
    ∀ l ls clen, ∃ ls2 rs, segRunsLoop lines (l :: ls) clen = (l :: ls2) :: rs := by
  induction lines with
  | nil =>
    intro l ls clen
    exact ⟨ls, [], by simp [segRunsLoop]⟩
  | cons line rest ih =>
    intro l ls clen
    by_cases h : 1000 < clen + line.length
    · refine ⟨ls, segRunsLoop rest [line] line.length, ?_⟩
      rw [segRunsLoop, if_pos h]
    · obtain ⟨ls2, rs, hrec⟩ := ih l (ls ++ [line]) (clen + line.length)
      refine ⟨ls2, rs, ?_⟩
      rw [segRunsLoop, if_neg h, List.cons_append, hrec]

theorem segRunsLoop_chain (lines : List String) :
    ∀ cur clen, clen = lineLen cur →
      List.Chain' segRel (segRunsLoop lines cur clen) := by
  induction lines with
  | nil =>
    intro cur clen _
    cases cur <;> simp [segRunsLoop]
  | cons line rest ih =>
    intro cur clen hclen
    by_cases h : 1000 < clen + line.length
    · rw [segRunsLoop, if_pos h]
      obtain ⟨ls2, rs, hrec⟩ := segRunsLoop_shape rest line [] line.length
      rw [hrec]
      have hchain : List.Chain' segRel ((line :: ls2) :: rs) := by
        rw [← hrec]
        exact ih [line] line.length (by simp [lineLen])
      exact List.chain'_cons.mpr
        ⟨⟨line, ls2, rfl, by rw [← hclen]; exact h⟩, hchain⟩
    · rw [segRunsLoop, if_neg h]
      exact ih (cur ++ [line]) (clen + line.length)
        (by rw [lineLen_append_single, hclen])

/-- C3: for every transcript longer than 2000 characters, the segmentation
step partitions the transcript's lines into runs: the produced segments are
exactly the runs rendered line-by-line (so no line is ever split across two
segments), the runs flatten back to the transcript's lines in order, every
run's cumulative character count is at most 1000 unless it is a single line
that alone exceeds 1000, and each run is maximal: the first line of the next
segment would have pushed it past the 1000-character budget. -/
theorem segmentation_partitions_lines (t : String) (h : 2000 < t.length) :
    ∃ rs : List (List String),
      generate_summary_segments t = rs.map renderRun ∧
      rs.flatten = splitLines t ∧
      (∀ r ∈ rs, lineLen r ≤ 1000 ∨ ∃ l, r = [l] ∧ 1000 < l.length) ∧
      List.Chain' segRel rs := by
  refine ⟨segRuns t, ?_, ?_, ?_, ?_⟩
  · have := segmentsLoop_eq_runs (splitLines t) [] 0
    simpa [generate_summary_segments, segRuns, renderRun] using this
  · simp [segRuns, segRunsLoop_flatten]
  · exact segRunsLoop_budget (splitLines t) [] 0 (by simp [lineLen])
      (Or.inl (by simp [lineLen]))
  · exact segRunsLoop_chain (splitLines t) [] 0 (by simp [lineLen])

/-- A concrete transcript of 2001 characters, used to instantiate the
segmentation theorem. -/
def longTranscript : String := String.mk (List.replicate 2001 'a')

theorem longTranscript_length : longTranscript.length = 2001 := by
  rw [show longTranscript.length = (List.replicate 2001 'a').length from rfl,
    List.length_replicate]

/-- Witness for C3: the segmentation theorem instantiated at a concrete
2001-character transcript. -/
theorem segmentation_partitions_lines_witness :
    ∃ rs : List (List String),
      generate_summary_segments longTranscript = rs.map renderRun ∧
      rs.flatten = splitLines longTranscript ∧
      (∀ r ∈ rs, lineLen r ≤ 1000 ∨ ∃ l, r = [l] ∧ 1000 < l.length) ∧
      List.Chain' segRel rs :=
  segmentation_partitions_lines longTranscript
    (by rw [longTranscript_length]; omega)

/-! ## Hierarchical summarizer (openai_client.generate_summary, lines 83-190)

The remote GPT calls are modelled by an oracle mapping the index of the call
(0-based, in issue order) to the text the call produced, or none for an
exception or a None payload.  Each issued call is recorded in a trace with
its kind and its variable content: the segment text for a segment-level
call, the whole transcript for a direct call, and the double-newline join of
the successful segment summaries for the final reduction call. -/

/-- Kind of a summarization call issued by generate_summary. -/
inductive CallKind where
  | direct : CallKind
  | segment : CallKind
  | reduce : CallKind
deriving DecidableEq, Repr

/-- One summarization call: its kind and the variable content of its user
prompt. -/
structure SummaryCall where
  kind : CallKind
  content : String
deriving DecidableEq, Repr

/-- The segment loop of generate_summary: issues one call per segment (the
call counter advances on every segment, success or not) and collects the
summaries of the calls that returned a nonempty text, in segment order.
Returns the collected summaries and the next call index. -/
def runSegments (oracle : Nat → Option String) : List String → Nat → List String × Nat
  | [], k => ([], k)
  | _ :: rest, k =>
    let res := runSegments oracle rest (k + 1)
    match oracle k with
    | some s => if s = "" then res else (s :: res.1, res.2)
    | none => res

/-- openai_client.generate_summary: returns None for a missing or blank
transcript without calling the service; summarizes a transcript of at most
2000 characters with a single direct call; otherwise segments the
transcript, issues one call per segment, and, when at least one segment
summary succeeded, issues one final reduction call over the double-newline
join of the successful segment summaries (whose result, possibly none, is
returned); when every segment call failed it returns None with no reduction
call.  The second component is the trace of issued calls. -/
def generate_summary (oracle : Nat → Option String) (transcript : Option String) :
    Option String × List SummaryCall :=
  match transcript with
  | none => (none, [])
  | some t =>
    if isBlank t then (none, [])
    else if 2000 < t.length then
      let segs := generate_summary_segments t
      let succ := (runSegments oracle segs 0).1
      let segCalls := segs.map (fun s => SummaryCall.mk CallKind.segment s)
      if succ = [] then (none, segCalls)
      else
        (oracle (runSegments oracle segs 0).2,
          segCalls ++ [SummaryCall.mk CallKind.reduce (String.intercalate "\n\n" succ)])
    else
      (oracle 0, [SummaryCall.mk CallKind.direct t])

/-- C7 (amended): for every transcript that is not blank, generate_summary
issues exactly one direct summarization call when the transcript has at most
2000 characters; when it has more than 2000 characters it issues one
segment-level call per segment, in segment order with the segment as
content, followed by exactly one reduction call whose content is the
double-newline join of the successful segment summaries — the reduction
call being issued exactly when at least one segment summary succeeded. -/
theorem generate_summary_call_shape (oracle : Nat → Option String) (t : String)
    (hb : isBlank t = false) :
    (t.length ≤ 2000 →
      (generate_summary oracle (some t)).2 = [SummaryCall.mk CallKind.direct t]) ∧
    (2000 < t.length →
      ((runSegments oracle (generate_summary_segments t) 0).1 = [] →
        (generate_summary oracle (some t)).2 =
          (generate_summary_segments t).map (fun s => SummaryCall.mk CallKind.segment s)) ∧
      ((runSegments oracle (generate_summary_segments t) 0).1 ≠ [] →
        (generate_summary oracle (some t)).2 =
          (generate_summary_segments t).map (fun s => SummaryCall.mk CallKind.segment s) ++
            [SummaryCall.mk CallKind.reduce
              (String.intercalate "\n\n"
                (runSegments oracle (generate_summary_segments t) 0).1)])) := by
  refine ⟨fun hle => ?_, fun hgt => ⟨fun hnone => ?_, fun hsome => ?_⟩⟩
  · simp [generate_summary, hb, Nat.not_lt.mpr hle]
  · simp [generate_summary, hb, hgt, hnone]
  · simp [generate_summary, hb, hgt, hsome]

/-- Witness for C7: with a transcript of 5 characters and an always-succeeding
oracle, exactly one direct call is issued. -/
theorem generate_summary_call_shape_witness :
    (generate_summary (fun _ => some "ok") (some "hello")).2 =
      [SummaryCall.mk CallKind.direct "hello"] :=
  (generate_summary_call_shape (fun _ => some "ok") "hello" (by decide)).1 (by decide)

/-- Counterexample for C7 as stated: the whitespace-only transcript of one
character has length at most 2000 yet generate_summary issues zero
summarization calls, not exactly one. -/
theorem generate_summary_blank_short_cex :
    (" " : String).length ≤ 2000 ∧
      generate_summary (fun _ => some "ok") (some " ") = (none, []) := by
  constructor
  · decide
  · decide

/-- C10: for a transcript argument that is None, empty, or whitespace-only,
generate_summary returns None without issuing any summarization call. -/
theorem generate_summary_rejects_blank :
    (∀ oracle, generate_summary oracle none = (none, [])) ∧
    (∀ oracle t, isBlank t = true → generate_summary oracle (some t) = (none, [])) := by
  refine ⟨fun oracle => rfl, fun oracle t hb => ?_⟩
  simp [generate_summary, hb]

/-- Witness for C10: instantiated at the missing transcript and at a
whitespace-only transcript. -/
theorem generate_summary_rejects_blank_witness :
    generate_summary (fun _ => some "x") none = (none, []) ∧
    generate_summary (fun _ => some "x") (some " \t ") = (none, []) :=
  ⟨generate_summary_rejects_blank.1 (fun _ => some "x"),
    generate_summary_rejects_blank.2 (fun _ => some "x") " \t " (by decide)⟩

/-! ## Transcript aggregator (audio_processor.process_audio_file, lines 66-94)

The chunk loop collects, in chunk order, the transcripts of the chunks whose
transcription returned a nonempty text (Python truthiness), and joins them
with a single space. -/

/-- Python truthiness filter on an optional string: keeps a result exactly
when it is a nonempty text (the `if transcript:` checks of the source). -/
def truthy (r : Option String) : Option String :=
  match r with
  | some t => if t = "" then none else some t
  | none => none

/-- The transcripts list accumulated by the chunk loop: the truthy
transcription results, in chunk order. -/
def collectTranscripts (results : List (Option String)) : List String :=
  results.filterMap truthy

/-- The merged transcript of a run: the collected chunk transcripts joined by
a single space. -/
def merged_transcript (results : List (Option String)) : String :=
  String.intercalate " " (collectTranscripts results)

/-- The TranscriptFragments of a run: each successful chunk transcript keyed
by its 0-based chunk ordinal, in production order. -/
def fragmentsAux : Nat → List (Option String) → List (Nat × String)
  | _, [] => []
  | k, r :: rs =>
    match truthy r with
    | some t => (k, t) :: fragmentsAux (k + 1) rs
    | none => fragmentsAux (k + 1) rs

/-- The fragment set of a run, keyed by chunk ordinal starting at 0. -/
def fragments (results : List (Option String)) : List (Nat × String) :=
  fragmentsAux 0 results

/-- Insertion into a fragment list, keeping ordinals ascending. -/
def insertByOrdinal (p : Nat × String) : List (Nat × String) → List (Nat × String)
  | [] => [p]
  | q :: qs => if p.1 ≤ q.1 then p :: q :: qs else q :: insertByOrdinal p qs

/-- Insertion sort of fragments by ordinal index ascending. -/
def sortByOrdinal : List (Nat × String) → List (Nat × String)
  | [] => []
  | p :: ps => insertByOrdinal p (sortByOrdinal ps)

/-- Spec-side aggregator, following the spec's words: sort the fragments by
ordinal index ascending and join their texts with a single space. -/
def mergeFragmentsSpec (fs : List (Nat × String)) : String :=
  String.intercalate " " ((sortByOrdinal fs).map Prod.snd)

theorem fragmentsAux_le (results : List (Option String)) :
    ∀ k, ∀ p ∈ fragmentsAux k results, k ≤ p.1 := by
  induction results with
  | nil => intro k p hp; simp [fragmentsAux] at hp
  | cons r rs ih =>
    intro k p hp
    rw [fragmentsAux] at hp
    cases htr : truthy r with
    | some t =>
      rw [htr] at hp
      rcases List.mem_cons.mp hp with h1 | h2
      · rw [h1]
      · exact le_trans (Nat.le_succ k) (ih (k + 1) p h2)
    | none =>
      rw [htr] at hp
      exact le_trans (Nat.le_succ k) (ih (k + 1) p hp)

theorem fragmentsAux_chain (results : List (Option String)) :
    ∀ k, List.Chain' (fun a b : Nat × String => a.1 ≤ b.1) (fragmentsAux k results) := by
  induction results with
  | nil => intro k; simp [fragmentsAux]
  | cons r rs ih =>
    intro k
    rw [fragmentsAux]
    cases htr : truthy r with
    | some t =>
      refine List.chain'_cons'.mpr ⟨fun y hy => ?_, ih (k + 1)⟩
      have hmem : y ∈ fragmentsAux (k + 1) rs := List.mem_of_mem_head? hy
      exact le_trans (Nat.le_succ k) (fragmentsAux_le rs (k + 1) y hmem)
    | none => exact ih (k + 1)

theorem sortByOrdinal_sorted_id (l : List (Nat × String))
    (hl : List.Chain' (fun a b : Nat × String => a.1 ≤ b.1) l) :
    sortByOrdinal l = l := by
  induction l with
  | nil => rfl
  | cons p ps ih =>
    obtain ⟨hhead, htail⟩ := List.chain'_cons'.mp hl
    rw [sortByOrdinal, ih htail]
    cases ps with
    | nil => rfl
    | cons q qs =>
      rw [insertByOrdinal, if_pos (hhead q (by simp))]

theorem fragmentsAux_map_snd (results : List (Option String)) :
    ∀ k, (fragmentsAux k results).map Prod.snd = collectTranscripts results := by
  induction results with
  | nil => intro k; rfl
  | cons r rs ih =>
    intro k
    rw [fragmentsAux, collectTranscripts, List.filterMap_cons]
    cases htr : truthy r with
    | some t => simp [ih (k + 1), collectTranscripts]
    | none => simp [ih (k + 1), collectTranscripts]

/-- C4: for every run, the merged transcript produced by the chunk loop
equals the spec-side aggregation of its fragment set — the fragment texts
sorted by ordinal index ascending, joined by a single space (the fragments
are produced in ascending ordinal order, so sorting leaves them unchanged);
in particular, merging the fragments (2, b) and (1, a) yields a-space-b. -/
theorem merge_order_preserving :
    (∀ results : List (Option String),
      merged_transcript results = mergeFragmentsSpec (fragments results)) ∧
    mergeFragmentsSpec [(2, "b"), (1, "a")] = "a b" := by
  constructor
  · intro results
    rw [merged_transcript, mergeFragmentsSpec, fragments,
      sortByOrdinal_sorted_id _ (fragmentsAux_chain results 0),
      fragmentsAux_map_snd results 0]
  · decide

/-! ## Chunk planner (audio_processor.split_audio_file, lines 122-217)

Chunk count and time spans, exactly as computed in the source: the chunk
duration in milliseconds is the configured minutes times 60000, the number
of chunks is the rounding-up integer division of the total duration by the
chunk duration, and chunk i spans from i times the chunk duration to the
minimum of (i+1) times the chunk duration and the total duration. -/

/-- Chunk duration in milliseconds derived from the configured minutes. -/
def chunk_ms (chunkDurationMin : Nat) : Nat := chunkDurationMin * 60 * 1000

/-- Number of chunks: (duration_ms + chunk_ms - 1) / chunk_ms, the source's
rounding-up division. -/
def n_chunks (durationMs chunkMs : Nat) : Nat := (durationMs + chunkMs - 1) / chunkMs

/-- The time span of chunk i: start = i * chunk_ms,
end = min ((i + 1) * chunk_ms) duration_ms. -/
def chunkSpan (chunkMs durationMs i : Nat) : Nat × Nat :=
  (i * chunkMs, min ((i + 1) * chunkMs) durationMs)

/-- The planned chunk spans of the splitting loop, in order. -/
def planChunks (durationMs chunkMs : Nat) : List (Nat × Nat) :=
  (List.range (n_chunks durationMs chunkMs)).map (chunkSpan chunkMs durationMs)

theorem lt_div_succ_mul (x c : Nat) (hc : 0 < c) : x < (x / c + 1) * c := by
  have h1 := Nat.div_add_mod x c
  have h2 := Nat.mod_lt x hc
  calc x = c * (x / c) + x % c := h1.symm
    _ < c * (x / c) + c := by omega
    _ = (x / c + 1) * c := by ring

theorem n_chunks_pos_formula (d c : Nat) (hc : 0 < c) (hd : 0 < d) :
    n_chunks d c = (d - 1) / c + 1 := by
  rw [n_chunks, show d + c - 1 = (d - 1) + c by omega, Nat.add_div_right _ hc]

/-- The full chunk-plan property: the plan lists exactly n_chunks spans,
n_chunks is the least number of chunk durations covering the total duration
(the ceiling of durationMs / chunkMs), chunk i spans
[i * chunkMs, min ((i + 1) * chunkMs) durationMs), and every instant below
durationMs lies in exactly one planned chunk span. -/
def chunkPlanSpec (durationMs chunkMs : Nat) : Prop :=
  (planChunks durationMs chunkMs).length = n_chunks durationMs chunkMs ∧
  (durationMs ≤ n_chunks durationMs chunkMs * chunkMs ∧
    ∀ m, durationMs ≤ m * chunkMs → n_chunks durationMs chunkMs ≤ m) ∧
  (∀ i, i < n_chunks durationMs chunkMs →
    (planChunks durationMs chunkMs).get? i =
      some (i * chunkMs, min ((i + 1) * chunkMs) durationMs)) ∧
  (∀ x, x < durationMs → ∃! i, i < n_chunks durationMs chunkMs ∧
    i * chunkMs ≤ x ∧ x < min ((i + 1) * chunkMs) durationMs)

/-- C5: for every oversized asset (size above the ceiling), the planned
number of chunks equals the rounding-up division of the total duration by
the chunk duration (the least count whose chunks cover the duration), chunk
i spans [i * chunkMs, min ((i + 1) * chunkMs) durationMs), and the spans
partition [0, durationMs): every instant below the total duration belongs
to exactly one planned chunk. -/
theorem chunk_plan_partitions (durationMs chunkMs sizeMB maxSizeMB : Nat)
    (hc : 0 < chunkMs) (hsize : maxSizeMB < sizeMB) :
    chunkPlanSpec durationMs chunkMs := by
  refine ⟨by simp [planChunks], ⟨?_, ?_⟩, ?_, ?_⟩
  · by_cases hd : 0 < durationMs
    · rw [n_chunks_pos_formula durationMs chunkMs hc hd]
      have := lt_div_succ_mul (durationMs - 1) chunkMs hc
      omega
    · omega
  · intro m hm
    by_cases hd : 0 < durationMs
    · rw [n_chunks_pos_formula durationMs chunkMs hc hd]
      have : (durationMs - 1) / chunkMs < m :=
        (Nat.div_lt_iff_lt_mul hc).mpr (by omega)
      omega
    · have hd0 : durationMs = 0 := by omega
      rw [hd0, n_chunks]
      have hz : (0 + chunkMs - 1) / chunkMs = 0 := Nat.div_eq_of_lt (by omega)
      rw [hz]
      exact Nat.zero_le m
  · intro i hi
    rw [planChunks, List.get?_map, List.get?_range hi]
    rfl
  · intro x hx
    have hd : 0 < durationMs := by omega
    refine ⟨x / chunkMs, ⟨?_, Nat.div_mul_le_self x chunkMs, ?_⟩, ?_⟩
    · rw [n_chunks_pos_formula durationMs chunkMs hc hd]
      have : x / chunkMs ≤ (durationMs - 1) / chunkMs :=
        Nat.div_le_div_right (by omega)
      omega
    · exact lt_min (lt_div_succ_mul x chunkMs hc) hx
    · rintro j ⟨_, hj2, hj3⟩
      exact (Nat.div_eq_of_lt_le
        (by rw [Nat.mul_comm] at hj2 ⊢; exact hj2)
        (by have := lt_of_lt_of_le hj3 (min_le_left _ _)
            rw [Nat.mul_comm] at this ⊢; exact this)).symm

/-- Witness for C5: the chunk-plan property instantiated at a 25-minute
(1500000 ms) asset of 30 MB against a 25 MB ceiling, cut in 10-minute
(600000 ms) chunks. -/
theorem chunk_plan_partitions_witness : chunkPlanSpec 1500000 (chunk_ms 10) :=
  chunk_plan_partitions 1500000 (chunk_ms 10) 30 25 (by decide) (by decide)

/-! ## Derived bitrate (audio_processor.split_audio_file, lines 143-148)

bitrate = int((max_file_size * 0.8 * 1024 * 8) / (chunk_duration * 60)),
then clamped to [32, 192].  The Python float arithmetic is modelled exactly
over the rationals; int() on the positive value is the floor. -/

/-- The raw derived bitrate in kbps before clamping, as an exact rational:
(maxSizeMB * 0.8 * 1024 * 8) / (chunkDurationMin * 60). -/
def bitrate_raw (maxSizeMB chunkDurationMin : Nat) : ℚ :=
  ((maxSizeMB : ℚ) * (8 / 10) * 1024 * 8) / ((chunkDurationMin : ℚ) * 60)

/-- The bitrate the source uses: the truncated raw bitrate clamped into
[32, 192] by max 32 (min 192 _). -/
def derived_bitrate (maxSizeMB chunkDurationMin : Nat) : ℤ :=
  max 32 (min 192 ⌊bitrate_raw maxSizeMB chunkDurationMin⌋)

/-- Clamp of x into [lo, hi], per the spec's formula. -/
def clamp (lo hi x : ℤ) : ℤ := max lo (min hi x)

/-- C6: for every positive maxSizeMB and chunkDurationMinutes, the derived
target bitrate equals clamp 32 192 of (maxSizeMB * 0.8 * 1024 * 8) /
(chunkDurationMinutes * 60) kbps, and is therefore always within
[32, 192] kbps. -/
theorem derived_bitrate_clamped (maxSizeMB chunkDurationMin : Nat)
    (h1 : 0 < maxSizeMB) (h2 : 0 < chunkDurationMin) :
    derived_bitrate maxSizeMB chunkDurationMin =
      clamp 32 192 ⌊bitrate_raw maxSizeMB chunkDurationMin⌋ ∧
    32 ≤ derived_bitrate maxSizeMB chunkDurationMin ∧
    derived_bitrate maxSizeMB chunkDurationMin ≤ 192 :=
  ⟨rfl, le_max_left _ _, max_le (by norm_num) (min_le_left _ _)⟩

/-- Witness for C6: instantiated at the default configuration, a 25 MB
ceiling and 10-minute chunks. -/
theorem derived_bitrate_clamped_witness :
    derived_bitrate 25 10 = clamp 32 192 ⌊bitrate_raw 25 10⌋ ∧
    32 ≤ derived_bitrate 25 10 ∧ derived_bitrate 25 10 ≤ 192 :=
  derived_bitrate_clamped 25 10 (by decide) (by decide)

/-! ## Orchestration (audio_processor.process_audio_file, lines 39-120)

The run is modelled as a function of an environment carrying the input
checks, the transcription outcome of each chunk, and the summarization
oracle.  The result is the returned boolean together with the trace of
persisted output files (transcript and summary writes); file writes
themselves are modelled as succeeding. -/

/-- A side effect of a run: a transcription attempt against the service, or
a persisted output file with its content. -/
inductive FileAction where
  | transcribeCall : FileAction
  | writeTranscript : String → FileAction
  | writeSummary : String → FileAction
deriving DecidableEq, Repr

/-- Environment of one process_audio_file run: input-check outcomes, file
size against the configured ceiling (both in MB), the chunk ordinals
produced by split_audio_file (empty models a failed split), the per-chunk
transcription outcome, the whole-file transcription outcome for the small
branch, and the summarization oracle. -/
structure RunEnv where
  fileExists : Bool
  formatSupported : Bool
  fileSizeMB : Nat
  maxFileSizeMB : Nat
  splitChunks : List Nat
  chunkTranscript : Nat → Option String
  smallTranscript : Option String
  summaryOracle : Nat → Option String

/-- The summary-file writes of AudioProcessor.generate_summary: the summary
returned by openai_client.generate_summary is persisted exactly when it is
a nonempty text; the method's boolean result is ignored by its caller. -/
def summaryWrites (oracle : Nat → Option String) (transcript : String) : List FileAction :=
  match (generate_summary oracle (some transcript)).1 with
  | some s => if s = "" then [] else [FileAction.writeSummary s]
  | none => []

/-- AudioProcessor.process_audio_file: rejects a missing file or an
unsupported format; above the size ceiling it splits, transcribes each
chunk, and if any chunk succeeded persists the merged transcript, attempts
the summary, and reports success; below the ceiling it does the same with
the whole-file transcript.  The trace records the persisted files. -/
def process_audio_file (env : RunEnv) : Bool × List FileAction :=
  if env.fileExists = false then (false, [])
  else if env.formatSupported = false then (false, [])
  else if env.maxFileSizeMB < env.fileSizeMB then
    if env.splitChunks = [] then (false, [])
    else if collectTranscripts (env.splitChunks.map env.chunkTranscript) = [] then
      (false, [])
    else
      (true, FileAction.writeTranscript
          (merged_transcript (env.splitChunks.map env.chunkTranscript)) ::
        summaryWrites env.summaryOracle
          (merged_transcript (env.splitChunks.map env.chunkTranscript)))
  else
    match truthy env.smallTranscript with
    | some t => (true, FileAction.writeTranscript t :: summaryWrites env.summaryOracle t)
    | none => (false, [])

/-- transcribe.process_file: rejects a file above the byte ceiling before
any client initialization or transcription attempt; otherwise transcribes
the whole file, writes the transcript file on a truthy transcript, then
generates the summary and, only when it is truthy, writes the summary file
and reports success — a failed summarization reports failure with the
transcript file already written. -/
def transcribe_process_file (maxBytes fileSize : Nat) (transcribeResult : Option String)
    (summaryOracle : Nat → Option String) : Bool × List FileAction :=
  if maxBytes < fileSize then (false, [])
  else
    match truthy transcribeResult with
    | none => (false, [FileAction.transcribeCall])
    | some t =>
      match (generate_summary summaryOracle (some t)).1 with
      | none => (false, [FileAction.transcribeCall, FileAction.writeTranscript t])
      | some s =>
        if s = "" then (false, [FileAction.transcribeCall, FileAction.writeTranscript t])
        else (true, [FileAction.transcribeCall, FileAction.writeTranscript t,
          FileAction.writeSummary s])

theorem summaryWrites_mem (oracle : Nat → Option String) (t s : String) :
    FileAction.writeSummary s ∈ summaryWrites oracle t ↔
      ((generate_summary oracle (some t)).1 = some s ∧ s ≠ "") := by
  rw [summaryWrites]
  cases hg : (generate_summary oracle (some t)).1 with
  | none => simp
  | some s2 =>
    show (FileAction.writeSummary s ∈
        if s2 = "" then [] else [FileAction.writeSummary s2]) ↔
      (some s2 = some s ∧ s ≠ "")
    by_cases hs2 : s2 = ""
    · subst hs2
      rw [if_pos rfl]
      constructor
      · intro hmem
        cases hmem
      · rintro ⟨heq, hne⟩
        cases heq
        exact absurd rfl hne
    · rw [if_neg hs2]
      constructor
      · intro hmem
        rcases List.mem_singleton.mp hmem with h
        cases h
        exact ⟨rfl, hs2⟩
      · rintro ⟨heq, _⟩
        cases heq
        exact List.mem_singleton.mpr rfl

/-- C1 (amended): for every oversized run in which at least one chunk
transcription succeeds, process_audio_file reports success and writes the
transcript file with the merged transcript, even if other chunks failed;
the summary file, however, is written exactly when the summarization of the
merged transcript returns a nonempty summary — when the summarization
fails, success is still reported and only the transcript file is written. -/
theorem process_success_partial_chunks (env : RunEnv)
    (h1 : env.fileExists = true) (h2 : env.formatSupported = true)
    (h3 : env.maxFileSizeMB < env.fileSizeMB)
    (h4 : collectTranscripts (env.splitChunks.map env.chunkTranscript) ≠ []) :
    (process_audio_file env).1 = true ∧
    (process_audio_file env).2 =
      FileAction.writeTranscript (merged_transcript (env.splitChunks.map env.chunkTranscript)) ::
        summaryWrites env.summaryOracle
          (merged_transcript (env.splitChunks.map env.chunkTranscript)) ∧
    (∀ s, FileAction.writeSummary s ∈ (process_audio_file env).2 ↔
      ((generate_summary env.summaryOracle
        (some (merged_transcript (env.splitChunks.map env.chunkTranscript)))).1 = some s ∧
        s ≠ "")) := by
  have hsplit : env.splitChunks ≠ [] := by
    intro hnil
    exact h4 (by rw [hnil]; rfl)
  have hrun : process_audio_file env =
      (true, FileAction.writeTranscript
          (merged_transcript (env.splitChunks.map env.chunkTranscript)) ::
        summaryWrites env.summaryOracle
          (merged_transcript (env.splitChunks.map env.chunkTranscript))) := by
    rw [process_audio_file, if_neg (by rw [h1]; simp), if_neg (by rw [h2]; simp),
      if_pos h3, if_neg hsplit, if_neg h4]
  refine ⟨by rw [hrun], by rw [hrun], fun s => ?_⟩
  rw [hrun]
  simp only [List.mem_cons]
  rw [summaryWrites_mem]
  constructor
  · rintro (habs | hp)
    · cases habs
    · exact hp
  · exact Or.inr

/-- A concrete oversized run: one of two chunks transcribes, the
summarization succeeds. -/
def envPartialOk : RunEnv :=
  ⟨true, true, 30, 25, [0, 1], fun i => if i = 0 then some "hello" else none,
    none, fun _ => some "SUM"⟩

/-- Witness for C1: in the concrete run envPartialOk, success is reported,
the transcript file holds the merged transcript and the summary file is
written exactly for the oracle's nonempty summary. -/
theorem process_success_partial_chunks_witness :
    (process_audio_file envPartialOk).1 = true ∧
    (process_audio_file envPartialOk).2 =
      FileAction.writeTranscript
          (merged_transcript (envPartialOk.splitChunks.map envPartialOk.chunkTranscript)) ::
        summaryWrites envPartialOk.summaryOracle
          (merged_transcript (envPartialOk.splitChunks.map envPartialOk.chunkTranscript)) ∧
    (∀ s, FileAction.writeSummary s ∈ (process_audio_file envPartialOk).2 ↔
      ((generate_summary envPartialOk.summaryOracle
        (some (merged_transcript
          (envPartialOk.splitChunks.map envPartialOk.chunkTranscript)))).1 = some s ∧
        s ≠ "")) :=
  process_success_partial_chunks envPartialOk rfl rfl (by decide) (by decide)

/-- A concrete oversized run: one of two chunks transcribes, but every
summarization call fails. -/
def envPartialNoSum : RunEnv :=
  ⟨true, true, 30, 25, [0, 1], fun i => if i = 0 then some "hello" else none,
    none, fun _ => none⟩

/-- Counterexample for C1 as stated: in envPartialNoSum a chunk transcription
succeeded and process_audio_file reports success, but the trace holds only
the transcript write — the summary file is never written because the
summarization call failed, refuting that both files are written. -/
theorem process_success_missing_summary_cex :
    process_audio_file envPartialNoSum = (true, [FileAction.writeTranscript "hello"]) := by
  decide

/-- C2 (amended): whenever AudioProcessor.process_audio_file reports
failure, no transcript and no summary file is written; in particular when
every chunk transcription of an oversized run fails it reports failure and
writes nothing.  transcribe.process_file never leaves a summary file on
failure, but, contrary to the claim, when transcription succeeds and the
summarization step fails it reports failure with the transcript file
already written. -/
theorem failure_leaves_no_files :
    (∀ env : RunEnv, (process_audio_file env).1 = false →
      (process_audio_file env).2 = []) ∧
    (∀ env : RunEnv, env.fileExists = true → env.formatSupported = true →
      env.maxFileSizeMB < env.fileSizeMB →
      (∀ i ∈ env.splitChunks, truthy (env.chunkTranscript i) = none) →
      process_audio_file env = (false, [])) ∧
    (∀ maxBytes fileSize tr so,
      (transcribe_process_file maxBytes fileSize tr so).1 = false →
      ∀ s, FileAction.writeSummary s ∉ (transcribe_process_file maxBytes fileSize tr so).2) ∧
    (∀ maxBytes fileSize t so, fileSize ≤ maxBytes →
      (generate_summary so (some t)).1 = none → t ≠ "" →
      transcribe_process_file maxBytes fileSize (some t) so =
        (false, [FileAction.transcribeCall, FileAction.writeTranscript t])) := by
  refine ⟨?_, ?_, ?_, ?_⟩
  · intro env h
    rw [process_audio_file] at h ⊢
    by_cases h1 : env.fileExists = false
    · rw [if_pos h1]
    · rw [if_neg h1] at h ⊢
      by_cases h2 : env.formatSupported = false
      · rw [if_pos h2]
      · rw [if_neg h2] at h ⊢
        by_cases h3 : env.maxFileSizeMB < env.fileSizeMB
        · rw [if_pos h3] at h ⊢
          by_cases h4 : env.splitChunks = []
          · rw [if_pos h4]
          · rw [if_neg h4] at h ⊢
            by_cases h5 : collectTranscripts (env.splitChunks.map env.chunkTranscript) = []
            · rw [if_pos h5]
            · rw [if_neg h5] at h
              cases h
        · rw [if_neg h3] at h ⊢
          cases h6 : truthy env.smallTranscript with
          | some t => simp [h6] at h
          | none => simp [h6]
  · intro env h1 h2 h3 hall
    have h5 : collectTranscripts (env.splitChunks.map env.chunkTranscript) = [] := by
      rw [collectTranscripts, List.filterMap_eq_nil_iff]
      intro a ha
      obtain ⟨i, hi, rfl⟩ := List.mem_map.mp ha
      exact hall i hi
    rw [process_audio_file, if_neg (by rw [h1]; simp), if_neg (by rw [h2]; simp),
      if_pos h3]
    by_cases h4 : env.splitChunks = []
    · rw [if_pos h4]
    · rw [if_neg h4, if_pos h5]
  · intro maxBytes fileSize tr so h s
    by_cases hsz : maxBytes < fileSize
    · simp [transcribe_process_file, hsz]
    · cases htr : truthy tr with
      | none => simp [transcribe_process_file, hsz, htr]
      | some t =>
        cases hg : (generate_summary so (some t)).1 with
        | none => simp [transcribe_process_file, hsz, htr, hg]
        | some s2 =>
          by_cases hs2 : s2 = ""
          · simp [transcribe_process_file, hsz, htr, hg, hs2]
          · rw [transcribe_process_file] at h
            simp [hsz, htr, hg, hs2] at h
  · intro maxBytes fileSize t so hsz hsum ht
    have hns : ¬ maxBytes < fileSize := by omega
    simp [transcribe_process_file, hns, truthy, ht, hsum]

/-- A concrete oversized run in which both chunk transcriptions fail. -/
def envAllFail : RunEnv :=
  ⟨true, true, 30, 25, [0, 1], fun _ => none, none, fun _ => some "S"⟩

/-- Witness for C2: the all-chunks-fail run reports failure with no files
written, and transcribe.process_file under a failing summarizer reports
failure without a summary write. -/
theorem failure_leaves_no_files_witness :
    process_audio_file envAllFail = (false, []) ∧
    transcribe_process_file (25 * 1024 * 1024) 100 (some "hello") (fun _ => none) =
      (false, [FileAction.transcribeCall, FileAction.writeTranscript "hello"]) :=
  ⟨failure_leaves_no_files.2.1 envAllFail rfl rfl (by decide) (fun i _ => rfl),
    failure_leaves_no_files.2.2.2 (25 * 1024 * 1024) 100 "hello" (fun _ => none)
      (by omega) (by decide) (by decide)⟩

/-- Counterexample for C2 as stated: transcribe.process_file on a small file
whose transcription succeeds but whose summarization fails reports failure
while the transcript file has already been written — a partial output file
left behind by a failed run. -/
theorem failure_partial_transcript_cex :
    transcribe_process_file (25 * 1024 * 1024) 2048 (some "hi") (fun _ => none) =
      (false, [FileAction.transcribeCall, FileAction.writeTranscript "hi"]) := by
  decide

/-! ## Chunk artifact lifetime (audio_processor.process_audio_file, lines 67-91)

split_audio_file exports every chunk file into the temp folder before the
transcription loop starts; iteration j of the loop then removes chunk j in
its finally block, whatever the outcome of the transcription attempt.
residentAt n j is the set of chunk ordinals whose temp files exist at the
moment attempt j begins. -/

/-- Temp chunk files present when attempt j begins: all n chunks exist after
the split, and each earlier iteration removed its own chunk in its finally
block. -/
def residentAt (n : Nat) : Nat → Finset Nat
  | 0 => Finset.range n
  | j + 1 => (residentAt n j).erase j

theorem mem_residentAt (n j k : Nat) : k ∈ residentAt n j ↔ k < n ∧ j ≤ k := by
  induction j with
  | zero => simp [residentAt]
  | succ j ih =>
    rw [residentAt, Finset.mem_erase, ih]
    omega

/-- C8 (amended): every chunk artifact of an oversized run is present when
its own transcription attempt begins and is deleted — success or failure —
before any later attempt begins, so no artifact outlives its own attempt.
However, all chunk artifacts are created by the split phase before the
first attempt, so it is not true that at most one artifact is resident at a
time. -/
theorem chunk_artifact_lifetime (n i : Nat) (h : i < n) :
    i ∈ residentAt n i ∧ ∀ j, i < j → i ∉ residentAt n j := by
  constructor
  · rw [mem_residentAt]
    exact ⟨h, le_refl i⟩
  · intro j hj
    rw [mem_residentAt]
    omega

/-- Witness for C8: with two chunks, chunk 0 is resident at its own attempt
and gone at attempt 1. -/
theorem chunk_artifact_lifetime_witness :
    0 ∈ residentAt 2 0 ∧ 0 ∉ residentAt 2 1 :=
  ⟨(chunk_artifact_lifetime 2 0 (by decide)).1,
    (chunk_artifact_lifetime 2 0 (by decide)).2 1 (by decide)⟩

/-- Counterexample for C8 as stated: with two chunks, both artifacts are
resident when the first transcription attempt begins, refuting that at most
one artifact is resident at a time. -/
theorem chunk_artifacts_not_single_cex : ¬ (residentAt 2 0).card ≤ 1 := by
  decide

/-! ## File-size gate of transcribe.process_file (transcribe.py, lines 133-139) -/

/-- transcribe.py MAX_FILE_SIZE: the configured megabyte count (default 25)
converted to bytes. -/
def MAX_FILE_SIZE_bytes (mb : Nat) : Nat := mb * 1024 * 1024

/-- C9: for every input file whose size in bytes exceeds MAX_FILE_SIZE,
transcribe.process_file returns failure immediately with an empty trace: no
transcription call is attempted and no file is written (process_file never
splits a file into chunks on any path). -/
theorem oversized_file_rejected (mb fileSize : Nat) (tr : Option String)
    (so : Nat → Option String) (h : MAX_FILE_SIZE_bytes mb < fileSize) :
    transcribe_process_file (MAX_FILE_SIZE_bytes mb) fileSize tr so = (false, []) := by
  rw [transcribe_process_file, if_pos h]

/-- Witness for C9: the default 25 MB ceiling rejects a file one byte over
it. -/
theorem oversized_file_rejected_witness :
    transcribe_process_file (MAX_FILE_SIZE_bytes 25) 26214401 (some "x")
      (fun _ => some "y") = (false, []) :=
  oversized_file_rejected 25 26214401 (some "x") (fun _ => some "y") (by decide)

end AudioTranscription
